import Mathlib

/-!
# Verification of the `siliconcompiler` schema journal

This file gives a shallow embedding of `siliconcompiler/schema/journal.py`
(class `Journal`) and settles the specification claims about it.

Modelling decisions:

* A Python `Journal` object holds `__keyprefix`, `__parent` (a reference to
  another `Journal`, the root points to itself), `__record_types` and
  `__journal`.  Objects and reference sharing are modelled by a heap: a list
  of `JournalObj` records addressed by their index, with `parent` stored as
  an address.  Every method of the class reads and writes state through
  `self.__parent`, exactly as the Python source does.
* Journal entry values are polymorphic in `V`.  The Python source coerces a
  `set` value to a `list` before appending (a representation detail of
  Python's dynamic values that has no counterpart for typed values) and an
  `int` index to its decimal string; the latter is embedded faithfully by
  `canonIndex`.
* The store being journaled (`BaseSchema`) is not part of the sources under
  verification; `replay` only calls its four mutators, so the store is
  abstracted by `StoreOps`, an arbitrary state type with those mutators.
-/

/-- One recorded transaction, the dictionary appended by `Journal.record`:
`{"type": ..., "key": ..., "value": ..., "field": ..., "step": ..., "index": ...}`. -/
structure JournalEntry (V : Type) where
  type : String
  key : List String
  value : Option V
  field : Option String
  step : Option String
  index : Option String
deriving DecidableEq

instance : Inhabited (JournalEntry V) := ⟨⟨"", [], none, none, none, none⟩⟩

/-- The attributes of one Python `Journal` object: `__keyprefix` (named
`keyPre` here), `__parent` (an address into the heap; the root points to
itself), `__record_types` and `__journal` (`none` models Python `None`). -/
structure JournalObj (V : Type) where
  keyPre : List String
  parent : Nat
  record_types : Finset String
  journal : Option (List (JournalEntry V))

instance : Inhabited (JournalObj V) := ⟨⟨[], 0, ∅, none⟩⟩

/-- A heap of `Journal` objects; addresses are list indices. -/
abbrev JournalHeap (V : Type) := List (JournalObj V)

/-- Dereference an address (out-of-range addresses yield the default object;
all runs we consider only ever use valid addresses). -/
def heapGet (h : JournalHeap V) (i : Nat) : JournalObj V := h.getD i default

/-- Update the object stored at an address. -/
def heapSet (h : JournalHeap V) (i : Nat) (o : JournalObj V) : JournalHeap V :=
  h.set i o

namespace Journal

/-- `Journal.__init__(keyprefix)`: allocates a fresh object whose parent is
itself; `__init__` ends with `self.stop()`, leaving `record_types` empty and
`journal = None`.  Returns the extended heap and the new object's address. -/
def new (keyPre : List String) (h : JournalHeap V) : JournalHeap V × Nat :=
  (h ++ [{ keyPre := keyPre, parent := h.length, record_types := ∅, journal := none }],
   h.length)

/-- `Journal.keypath` property. -/
def keypath (h : JournalHeap V) (self : Nat) : List String :=
  (heapGet h self).keyPre

/-- `Journal.get_child(*keypath)`: a fresh `Journal` with the concatenated
prefix whose `__parent` is then redirected to `self.__parent`. -/
def get_child (h : JournalHeap V) (self : Nat) (keypath : List String) :
    JournalHeap V × Nat :=
  let hc := new ((heapGet h self).keyPre ++ keypath) h
  (heapSet hc.1 hc.2 { heapGet hc.1 hc.2 with parent := (heapGet h self).parent }, hc.2)

/-- `Journal.from_dict(manifest)`: sets `self.__journal` (note: `self`'s own
field, not the parent's). -/
def from_dict (h : JournalHeap V) (self : Nat) (manifest : List (JournalEntry V)) :
    JournalHeap V :=
  heapSet h self { heapGet h self with journal := some manifest }

/-- `Journal.get()`: `copy.deepcopy(self.__parent.__journal)`.  Lean values
are immutable, so the deep copy is the value itself (aliasing is studied
separately by the `RefLog` model below). -/
def get (h : JournalHeap V) (self : Nat) : Option (List (JournalEntry V)) :=
  (heapGet h (heapGet h self).parent).journal

/-- `Journal.has_journaling()`: `self is self.__parent and bool(self.__journal)`
(Python truthiness: `None` and `[]` are falsy). -/
def has_journaling (h : JournalHeap V) (self : Nat) : Bool :=
  self == (heapGet h self).parent &&
    (match (heapGet h self).journal with
     | some (_ :: _) => true
     | _ => false)

/-- `Journal.is_journaling()`: `self.__parent.__journal is not None`. -/
def is_journaling (h : JournalHeap V) (self : Nat) : Bool :=
  (heapGet h (heapGet h self).parent).journal.isSome

/-- `Journal.get_types()` (the `.copy()` is the value itself here). -/
def get_types (h : JournalHeap V) (self : Nat) : Finset String :=
  (heapGet h (heapGet h self).parent).record_types

/-- The tuple `("set", "add", "remove", "unset", "get")` checked by
`Journal.add_type`. -/
def valid_types : List String := ["set", "add", "remove", "unset", "get"]

/-- `Journal.add_type(value)`: raises `ValueError` for an unrecognized name,
otherwise inserts into `self.__parent.__record_types`. -/
def add_type (h : JournalHeap V) (self : Nat) (value : String) :
    Except String (JournalHeap V) :=
  if value ∈ valid_types then
    .ok (heapSet h (heapGet h self).parent
      { heapGet h (heapGet h self).parent with
        record_types := insert value (heapGet h (heapGet h self).parent).record_types })
  else
    .error (value ++ " is not a valid type")

/-- `Journal.remove_type(value)`: `remove` with `KeyError` swallowed, i.e.
plain erasure. -/
def remove_type (h : JournalHeap V) (self : Nat) (value : String) : JournalHeap V :=
  heapSet h (heapGet h self).parent
    { heapGet h (heapGet h self).parent with
      record_types := (heapGet h (heapGet h self).parent).record_types.erase value }

/-- `index` canonicalization performed by `Journal.record`: an `int` index is
converted to its decimal string. -/
def canonIndex : Option (Int ⊕ String) → Option String
  | none => none
  | some (Sum.inl n) => some (toString n)
  | some (Sum.inr s) => some s

/-- `Journal.record(record_type, key, value, field, step, index)`: a no-op
when `self.__parent.__journal is None` or the type is not enabled; otherwise
appends the entry, with `self.__keyprefix` prepended to `key`, to the
parent's log. -/
def record (h : JournalHeap V) (self : Nat) (record_type : String)
    (key : List String) (value : Option V) (field : Option String)
    (step : Option String) (index : Option (Int ⊕ String)) : JournalHeap V :=
  match (heapGet h (heapGet h self).parent).journal with
  | none => h
  | some log =>
    if record_type ∈ (heapGet h (heapGet h self).parent).record_types then
      heapSet h (heapGet h self).parent
        { heapGet h (heapGet h self).parent with
          journal := some (log ++
            [{ type := record_type,
               key := (heapGet h self).keyPre ++ key,
               value := value,
               field := field,
               step := step,
               index := canonIndex index }]) }
    else h

/-- `Journal.start()`: sets `self.__parent.__journal = []`, then enables the
four mutating types via `add_type` (which cannot fail on these names). -/
def start (h : JournalHeap V) (self : Nat) : Except String (JournalHeap V) := do
  let h1 := heapSet h (heapGet h self).parent
    { heapGet h (heapGet h self).parent with journal := some [] }
  let h2 ← add_type h1 self "set"
  let h3 ← add_type h2 self "add"
  let h4 ← add_type h3 self "remove"
  add_type h4 self "unset"

/-- `Journal.stop()`: sets `self.__parent.__journal = None` and clears
`self.__parent.__record_types`. -/
def stop (h : JournalHeap V) (self : Nat) : JournalHeap V :=
  let h1 := heapSet h (heapGet h self).parent
    { heapGet h (heapGet h self).parent with journal := none }
  heapSet h1 (heapGet h1 self).parent
    { heapGet h1 (heapGet h1 self).parent with record_types := ∅ }

end Journal

/-- Modelled from the spec: the journaled store (`BaseSchema`) is not among
the sources under verification; only its four mutators `set`, `add`,
`unset`, `remove` are invoked by `Journal.replay`, so the store is an
arbitrary state type `S` equipped with those mutators.  Arguments follow the
calls in `Journal.replay`: `set`/`add` receive
`(*keypath, value, field=..., step=..., index=...)`, `unset` receives
`(*keypath, step=..., index=...)`, `remove` receives `(*keypath)`. -/
structure StoreOps (V S : Type) where
  set : List String → Option V → Option String → Option String → Option String → S → S
  add : List String → Option V → Option String → Option String → Option String → S → S
  unset : List String → Option String → Option String → S → S
  remove : List String → S → S

namespace Journal

/-- The `for action in self.__parent.__journal` loop of `Journal.replay`:
dispatch on the entry type, skip `get`, raise `ValueError` on anything
else (aborting the loop). -/
def replayLog (so : StoreOps V S) : List (JournalEntry V) → S → Except String S
  | [], st => .ok st
  | a :: rest, st =>
    if a.type = "set" then
      replayLog so rest (so.set a.key a.value a.field a.step a.index st)
    else if a.type = "add" then
      replayLog so rest (so.add a.key a.value a.field a.step a.index st)
    else if a.type = "unset" then
      replayLog so rest (so.unset a.key a.step a.index st)
    else if a.type = "remove" then
      replayLog so rest (so.remove a.key st)
    else if a.type = "get" then
      replayLog so rest st
    else
      .error ("Unknown record type " ++ a.type)

/-- `Journal.replay(schema)`: returns immediately (store untouched) when
`self.__parent.__journal` is falsy (`None` or `[]`), otherwise runs the
loop.  The `isinstance(schema, BaseSchema)` guard is enforced by the type
of `st` in this embedding. -/
def replay (h : JournalHeap V) (self : Nat) (so : StoreOps V S) (st : S) :
    Except String S :=
  match (heapGet h (heapGet h self).parent).journal with
  | none => .ok st
  | some [] => .ok st
  | some log => replayLog so log st

/-- `Journal.replay_file(schema, filepath)`: the parsed JSON manifest is
modelled by its optional `"__journal__"` section (`none` when the key is
absent).  When present, a fresh root journal receives the log via
`from_dict` and replays it. -/
def replay_file (so : StoreOps V S) (manifest : Option (List (JournalEntry V)))
    (st : S) : Except String S :=
  match manifest with
  | none => .ok st
  | some jlog =>
    let hj := new [] ([] : JournalHeap V)
    let h := from_dict hj.1 hj.2 jlog
    replay h hj.2 so st

end Journal

/-- Modelled from the spec: one mutating or reading store operation as issued
by a caller.  `BaseSchema.set/add/unset/remove/get` (not among the sources)
mutate/read the store and call `Journal.record` with the operation's name;
the store canonicalizes an integer index to its string form exactly as the
journal does. -/
inductive Op (V : Type) where
  | set (key : List String) (value : Option V) (field : Option String)
      (step : Option String) (index : Option (Int ⊕ String))
  | add (key : List String) (value : Option V) (field : Option String)
      (step : Option String) (index : Option (Int ⊕ String))
  | unset (key : List String) (step : Option String) (index : Option (Int ⊕ String))
  | remove (key : List String)
  | get (key : List String) (field : Option String) (step : Option String)
      (index : Option (Int ⊕ String))

/-- Effect of one operation on the store; `get` reads without mutating. -/
def applyOp (so : StoreOps V S) : Op V → S → S
  | .set key value field step index, st =>
      so.set key value field step (Journal.canonIndex index) st
  | .add key value field step index, st =>
      so.add key value field step (Journal.canonIndex index) st
  | .unset key step index, st =>
      so.unset key step (Journal.canonIndex index) st
  | .remove key, st => so.remove key st
  | .get _ _ _ _, st => st

/-- The `Journal.record` call made by each store operation. -/
def recordOp (h : JournalHeap V) (self : Nat) : Op V → JournalHeap V
  | .set key value field step index =>
      Journal.record h self "set" key value field step index
  | .add key value field step index =>
      Journal.record h self "add" key value field step index
  | .unset key step index =>
      Journal.record h self "unset" key none none step index
  | .remove key =>
      Journal.record h self "remove" key none none none none
  | .get key field step index =>
      Journal.record h self "get" key none field step index

/-- Run one operation against the (store, journal-heap) pair. -/
def doOp (so : StoreOps V S) (self : Nat) (sh : S × JournalHeap V) (op : Op V) :
    S × JournalHeap V :=
  (applyOp so op sh.1, recordOp sh.2 self op)

/-- Run a sequence of operations against the (store, journal-heap) pair. -/
def doOps (so : StoreOps V S) (self : Nat) (ops : List (Op V))
    (sh : S × JournalHeap V) : S × JournalHeap V :=
  ops.foldl (doOp so self) sh

/-- Run a sequence of operations against the store alone. -/
def applyOps (so : StoreOps V S) (ops : List (Op V)) (st : S) : S :=
  ops.foldl (fun st op => applyOp so op st) st

/-- Setup used by the round-trip claim: a fresh root journal (`Journal()`),
`start()`ed, with the opt-in `get` type also enabled so that logs may carry
`get` entries.  Both `start` and `add_type "get"` always succeed here; the
`.error` fallback is unreachable. -/
def journalAfterStart (V : Type) : JournalHeap V × Nat :=
  let hr := Journal.new [] ([] : JournalHeap V)
  match (Journal.start hr.1 hr.2).bind (fun h => Journal.add_type h hr.2 "get") with
  | .ok h' => (h', hr.2)
  | .error _ => hr

/-!
## A reference-cell model of the log, for `copy.deepcopy`

`Journal.get` returns `copy.deepcopy(self.__parent.__journal)`.  To reason
about aliasing, the log is refined to a list of cell addresses into a store
of mutable entry objects; `deepcopy` allocates fresh cells holding copies of
the entries reachable from the log and returns references to the copies.
-/

/-- The root's log as Python objects: `cells` is the object store (addressed
by index), `log` is the journal list holding references to entry objects. -/
structure RefLog (V : Type) where
  cells : List (JournalEntry V)
  log : List Nat

/-- Dereference one entry cell. -/
def cellAt (r : RefLog V) (a : Nat) : JournalEntry V :=
  r.cells.getD a default

/-- The entry values the journal's own log currently denotes. -/
def logValues (r : RefLog V) : List (JournalEntry V) :=
  r.log.map (cellAt r)

/-- `copy.deepcopy` applied to the log: allocate one fresh cell per log
element, holding a copy of the referenced entry, and return the list of
fresh references; the journal's own `log` is untouched. -/
def deepcopyGet (r : RefLog V) : RefLog V × List Nat :=
  (⟨r.cells ++ logValues r, r.log⟩,
   (List.range r.log.length).map (fun i => r.cells.length + i))

/-- In-place mutation of one entry object (what a caller could do to the
value returned by `Journal.get`). -/
def writeCell (r : RefLog V) (a : Nat) (e : JournalEntry V) : RefLog V :=
  ⟨r.cells.set a e, r.log⟩

/-- A log is well formed when every reference points into the cell store. -/
def RefLogWF (r : RefLog V) : Prop :=
  ∀ a ∈ r.log, a < r.cells.length

/-!
## Resolver cache identity

The `Resolver` class (`siliconcompiler/package`) is not among the sources
under verification — only its test suite is — so its cache identity is
modelled from the spec.
-/

/-- Modelled from the spec: a `Resolver` carries a caller-chosen display
`name`, a `source` URI and an optional `reference`.  The `source` field
holds the URI after environment substitution (substitution itself is out of
scope here). -/
structure Resolver where
  name : String
  source : String
  reference : Option String

/-- Modelled from the spec: `cache_id` is "a hash over
(source_uri-after-substitution, reference) — explicitly NOT over the
caller-supplied `name`" and a "deterministic fingerprint".  The ideal
fingerprint is injective on its two inputs, so it is modelled by the pair
itself. -/
def Resolver.cache_id (r : Resolver) : String × Option String :=
  (r.source, r.reference)

/-!
## Heap lemmas
-/

theorem length_heapSet (h : JournalHeap V) (i : Nat) (o : JournalObj V) :
    (heapSet h i o).length = h.length :=
  List.length_set h i o

theorem heapGet_heapSet_eq (h : JournalHeap V) (i : Nat) (o : JournalObj V)
    (hi : i < h.length) : heapGet (heapSet h i o) i = o := by
  unfold heapGet heapSet
  rw [List.getD_eq_getElem _ _ (by simpa using hi)]
  exact List.getElem_set_self (by simpa using hi)

theorem heapGet_heapSet_ne (h : JournalHeap V) (i j : Nat) (o : JournalObj V)
    (hij : i ≠ j) : heapGet (heapSet h i o) j = heapGet h j := by
  unfold heapGet heapSet
  by_cases hj : j < h.length
  · rw [List.getD_eq_getElem _ _ (by simpa using hj), List.getD_eq_getElem _ _ hj]
    exact List.getElem_set_ne hij _
  · rw [List.getD_eq_default _ _ (by simpa using Nat.le_of_not_lt hj),
      List.getD_eq_default _ _ (Nat.le_of_not_lt hj)]

theorem heapGet_append_lt (h : JournalHeap V) (o : JournalObj V) (i : Nat)
    (hi : i < h.length) : heapGet (h ++ [o]) i = heapGet h i := by
  unfold heapGet
  exact List.getD_append h [o] default i hi

theorem heapGet_append_len (h : JournalHeap V) (o : JournalObj V) :
    heapGet (h ++ [o]) h.length = o := by
  unfold heapGet
  rw [List.getD_append_right h [o] default h.length (Nat.le_refl _)]
  simp

theorem heapSet_append_len (h : JournalHeap V) (o o' : JournalObj V) :
    heapSet (h ++ [o]) h.length o' = h ++ [o'] := by
  unfold heapSet
  induction h with
  | nil => rfl
  | cons a t ih => simp [List.set, ih]

theorem heapSet_heapSet (h : JournalHeap V) (i : Nat) (a b : JournalObj V) :
    heapSet (heapSet h i a) i b = heapSet h i b :=
  List.set_set a b h i

/-- Writing at `self.__parent` an object carrying the same `parent` field as
the object already there neither moves `self.__parent` nor garbles the
written object. -/
theorem heapSet_preserving_parent (h : JournalHeap V) (self : Nat) (o : JournalObj V)
    (hv : (heapGet h self).parent < h.length)
    (hpar : o.parent = (heapGet h (heapGet h self).parent).parent) :
    (heapGet (heapSet h (heapGet h self).parent o) self).parent = (heapGet h self).parent ∧
    heapGet (heapSet h (heapGet h self).parent o) (heapGet h self).parent = o := by
  refine ⟨?_, heapGet_heapSet_eq _ _ _ hv⟩
  by_cases hps : (heapGet h self).parent = self
  · rw [hps, heapGet_heapSet_eq _ _ _ (hps ▸ hv), hpar, hps]
    exact hps
  · rw [heapGet_heapSet_ne _ _ _ _ hps]

/-- `add_type` on a recognized name: the exact resulting heap. -/
theorem add_type_valid_eq (h : JournalHeap V) (self : Nat) (value : String)
    (hval : value ∈ Journal.valid_types) :
    Journal.add_type h self value = .ok (heapSet h (heapGet h self).parent
      { heapGet h (heapGet h self).parent with
        record_types := insert value (heapGet h (heapGet h self).parent).record_types }) := by
  simp only [Journal.add_type, if_pos hval]

/-- `record` when journaling is active and the type is enabled: the exact
resulting heap (one entry appended to the parent's log). -/
theorem record_eq_active (h : JournalHeap V) (self : Nat) (rt : String)
    (key : List String) (value : Option V) (fld stp : Option String)
    (idx : Option (Int ⊕ String)) (log : List (JournalEntry V))
    (hj : (heapGet h (heapGet h self).parent).journal = some log)
    (ht : rt ∈ (heapGet h (heapGet h self).parent).record_types) :
    Journal.record h self rt key value fld stp idx =
      heapSet h (heapGet h self).parent
        { heapGet h (heapGet h self).parent with
          journal := some (log ++
            [{ type := rt, key := (heapGet h self).keyPre ++ key, value := value,
               field := fld, step := stp, index := Journal.canonIndex idx }]) } := by
  simp only [Journal.record, hj, if_pos ht]

/-- `record` is the identity when journaling is off or the type is not
enabled. -/
theorem record_eq_inactive (h : JournalHeap V) (self : Nat) (rt : String)
    (key : List String) (value : Option V) (fld stp : Option String)
    (idx : Option (Int ⊕ String))
    (hcond : (heapGet h (heapGet h self).parent).journal = none ∨
      rt ∉ (heapGet h (heapGet h self).parent).record_types) :
    Journal.record h self rt key value fld stp idx = h := by
  rcases hcond with hj | ht
  · simp only [Journal.record, hj]
  · cases hj : (heapGet h (heapGet h self).parent).journal with
    | none => simp only [Journal.record, hj]
    | some log => simp only [Journal.record, hj, if_neg ht]

theorem exbind_ok (a : α) (f : α → Except ε β) :
    (Except.ok a >>= f : Except ε β) = f a := rfl

/-- `add_type` applied to a heap whose parent object was just overwritten
(without moving its `parent` field) stays a single write at the parent. -/
theorem add_type_on_set (h : JournalHeap V) (self : Nat) (o : JournalObj V)
    (value : String) (hval : value ∈ Journal.valid_types)
    (hv : (heapGet h self).parent < h.length)
    (hpar : o.parent = (heapGet h (heapGet h self).parent).parent) :
    Journal.add_type (heapSet h (heapGet h self).parent o) self value =
      .ok (heapSet h (heapGet h self).parent
        { o with record_types := insert value o.record_types }) := by
  obtain ⟨hp, hg⟩ := heapSet_preserving_parent h self o hv hpar
  rw [add_type_valid_eq _ _ _ hval, hp, hg, heapSet_heapSet]

/-- The four `add_type` calls made by `start`, over an arbitrary freshly
written parent object. -/
theorem start_adds (h : JournalHeap V) (self : Nat)
    (hv : (heapGet h self).parent < h.length) (o : JournalObj V)
    (hpar : o.parent = (heapGet h (heapGet h self).parent).parent) :
    (do
      let h2 ← Journal.add_type (heapSet h (heapGet h self).parent o) self "set"
      let h3 ← Journal.add_type h2 self "add"
      let h4 ← Journal.add_type h3 self "remove"
      Journal.add_type h4 self "unset" : Except String (JournalHeap V)) =
    .ok (heapSet h (heapGet h self).parent
      { o with record_types := insert "unset" (insert "remove" (insert "add"
          (insert "set" o.record_types))) }) := by
  rw [add_type_on_set h self o "set" (by decide) hv hpar, exbind_ok,
    add_type_on_set h self { o with record_types := insert "set" o.record_types }
      "add" (by decide) hv hpar, exbind_ok,
    add_type_on_set h self
      { o with record_types := insert "add" (insert "set" o.record_types) }
      "remove" (by decide) hv hpar, exbind_ok,
    add_type_on_set h self
      { o with record_types := insert "remove" (insert "add" (insert "set" o.record_types)) }
      "unset" (by decide) hv hpar]

/-- `start` always succeeds; the exact resulting heap: the root's log is
reset to `[]` and the four mutating types are inserted into whatever
`record_types` already held (`start` does not clear previously enabled
types). -/
theorem start_eq (h : JournalHeap V) (self : Nat)
    (hv : (heapGet h self).parent < h.length) :
    Journal.start h self = .ok (heapSet h (heapGet h self).parent
      { heapGet h (heapGet h self).parent with
        journal := some [],
        record_types := insert "unset" (insert "remove" (insert "add" (insert "set"
          (heapGet h (heapGet h self).parent).record_types))) }) := by
  exact start_adds h self hv
    { heapGet h (heapGet h self).parent with journal := some [] } rfl

/-- The second write performed by `stop`, over an arbitrary freshly written
parent object. -/
theorem stop_second (h : JournalHeap V) (self : Nat)
    (hv : (heapGet h self).parent < h.length) (o : JournalObj V)
    (hpar : o.parent = (heapGet h (heapGet h self).parent).parent) :
    heapSet (heapSet h (heapGet h self).parent o)
      (heapGet (heapSet h (heapGet h self).parent o) self).parent
      { heapGet (heapSet h (heapGet h self).parent o)
          (heapGet (heapSet h (heapGet h self).parent o) self).parent with
        record_types := ∅ }
    = heapSet h (heapGet h self).parent { o with record_types := ∅ } := by
  obtain ⟨hp1, hg1⟩ := heapSet_preserving_parent h self o hv hpar
  rw [hp1, hg1]
  exact heapSet_heapSet h _ _ _

theorem getD_set_of_ne (l : List α) (i j : Nat) (x d : α) (hij : i ≠ j) :
    (l.set i x).getD j d = l.getD j d := by
  by_cases hj : j < l.length
  · rw [List.getD_eq_getElem _ _ (by simpa using hj), List.getD_eq_getElem _ _ hj]
    exact List.getElem_set_ne hij _
  · rw [List.getD_eq_default _ _ (by simpa using Nat.le_of_not_lt hj),
      List.getD_eq_default _ _ (Nat.le_of_not_lt hj)]

/-- `get_child` in closed form: one fresh object appended, carrying the
concatenated prefix and the parent of `self`. -/
theorem get_child_eq (h : JournalHeap V) (self : Nat) (ks : List String) :
    Journal.get_child h self ks =
      (h ++ [{ keyPre := (heapGet h self).keyPre ++ ks,
               parent := (heapGet h self).parent,
               record_types := ∅, journal := none }], h.length) := by
  simp only [Journal.get_child, Journal.new]
  rw [heapGet_append_len, heapSet_append_len]

/-- Concatenation of a chain of child prefixes. -/
def flatAll : List (List String) → List String
  | [] => []
  | a :: r => a ++ flatAll r

/-- Iterated `get_child`: apply `get_child` once per prefix in the chain,
each time from the journal produced by the previous call. -/
def get_child_chain (h : JournalHeap V) (self : Nat) :
    List (List String) → JournalHeap V × Nat
  | [] => (h, self)
  | ks :: rest =>
    get_child_chain (Journal.get_child h self ks).1 (Journal.get_child h self ks).2 rest

/-- Structure of an iterated `get_child`: the final journal's parent is the
original parent, its prefix is the accumulated concatenation, no object
already on the heap changes, and (for a nonempty chain) the final child's
own private log is `none`. -/
theorem get_child_chain_spec :
    ∀ (chain : List (List String)) (h : JournalHeap V) (self : Nat),
      (heapGet h self).parent < h.length →
      (heapGet (get_child_chain h self chain).1 (get_child_chain h self chain).2).parent
          = (heapGet h self).parent ∧
      (heapGet (get_child_chain h self chain).1 (get_child_chain h self chain).2).keyPre
          = (heapGet h self).keyPre ++ flatAll chain ∧
      h.length ≤ (get_child_chain h self chain).1.length ∧
      (∀ i, i < h.length → heapGet (get_child_chain h self chain).1 i = heapGet h i) ∧
      (chain ≠ [] →
        (heapGet (get_child_chain h self chain).1 (get_child_chain h self chain).2).journal
          = none)
  | [], h, self, _ => by
    refine ⟨rfl, by simp [flatAll, get_child_chain], Nat.le_refl _,
      fun i _ => rfl, fun hc => absurd rfl hc⟩
  | ks :: rest, h, self, hv => by
    obtain ⟨onew, honew⟩ : ∃ o : JournalObj V,
        ({ keyPre := (heapGet h self).keyPre ++ ks,
           parent := (heapGet h self).parent,
           record_types := ∅, journal := none } : JournalObj V) = o :=
      ⟨_, rfl⟩
    have hparent : onew.parent = (heapGet h self).parent := by rw [← honew]
    have hpre : onew.keyPre = (heapGet h self).keyPre ++ ks := by rw [← honew]
    have hjour : onew.journal = none := by rw [← honew]
    have hstep : get_child_chain h self (ks :: rest) =
        get_child_chain (h ++ [onew]) h.length rest := by
      show get_child_chain (Journal.get_child h self ks).1
        (Journal.get_child h self ks).2 rest = _
      rw [get_child_eq, honew]
    have hvnew : (heapGet (h ++ [onew]) h.length).parent < (h ++ [onew]).length := by
      rw [heapGet_append_len, hparent]
      simp only [List.length_append, List.length_cons, List.length_nil]
      exact Nat.lt_succ_of_lt hv
    obtain ⟨ih1, ih2, ih3, ih4, ih5⟩ := get_child_chain_spec rest (h ++ [onew])
      h.length hvnew
    rw [heapGet_append_len] at ih1 ih2
    refine ⟨?_, ?_, ?_, ?_, ?_⟩
    · rw [hstep, ih1, hparent]
    · rw [hstep, ih2, hpre, flatAll, List.append_assoc]
    · rw [hstep]
      refine Nat.le_trans ?_ ih3
      simp
    · intro i hi
      have hi' : i < (h ++ [onew]).length := by
        simp only [List.length_append, List.length_cons, List.length_nil]
        exact Nat.lt_succ_of_lt hi
      rw [hstep, ih4 i hi', heapGet_append_lt _ _ _ hi]
    · intro _
      rw [hstep]
      cases rest with
      | nil =>
        show (heapGet (h ++ [onew]) h.length).journal = none
        rw [heapGet_append_len, hjour]
      | cons b bs => exact ih5 (by simp)

/-- `stop`: the exact resulting heap (log reference cleared, enabled types
emptied, both at the parent). -/
theorem stop_eq (h : JournalHeap V) (self : Nat)
    (hv : (heapGet h self).parent < h.length) :
    Journal.stop h self = heapSet h (heapGet h self).parent
      { heapGet h (heapGet h self).parent with journal := none, record_types := ∅ } := by
  exact stop_second h self hv { heapGet h (heapGet h self).parent with journal := none } rfl


/-!
## Claim theorems
-/

/-- C9: when journaling is not active (the parent's log reference is `None`)
or the given record type is not in the enabled set, `Journal.record` is a
complete no-op: the heap — log and enabled-type set included — is returned
unchanged, and no error is raised (`record` is total). -/
theorem record_noop_when_inactive_or_disabled (h : JournalHeap V) (self : Nat)
    (rt : String) (key : List String) (value : Option V) (fld stp : Option String)
    (idx : Option (Int ⊕ String))
    (hcond : (heapGet h (heapGet h self).parent).journal = none ∨
      rt ∉ (heapGet h (heapGet h self).parent).record_types) :
    Journal.record h self rt key value fld stp idx = h :=
  record_eq_inactive h self rt key value fld stp idx hcond

theorem record_noop_witness :
    Journal.record ([⟨[], 0, ∅, none⟩] : JournalHeap Nat) 0 "set" ["a"]
      (some 1) none none none = ([⟨[], 0, ∅, none⟩] : JournalHeap Nat) :=
  record_noop_when_inactive_or_disabled _ 0 "set" ["a"] (some 1) none none none
    (Or.inl rfl)

/-- C6: `add_type` succeeds exactly on the five recognized record-type
names and raises the `ValueError` message for anything else, at add-time. -/
theorem add_type_rejects_unknown (h : JournalHeap V) (self : Nat) (value : String) :
    ((∃ h', Journal.add_type h self value = .ok h') ↔ value ∈ Journal.valid_types) ∧
    (value ∉ Journal.valid_types →
      Journal.add_type h self value = .error (value ++ " is not a valid type")) := by
  constructor
  · constructor
    · rintro ⟨h', hh⟩
      by_contra hval
      simp only [Journal.add_type, if_neg hval] at hh
      exact Except.noConfusion hh
    · intro hval
      exact ⟨_, add_type_valid_eq h self value hval⟩
  · intro hval
    simp only [Journal.add_type, if_neg hval]

theorem add_type_rejects_unknown_witness :
    Journal.add_type ([⟨[], 0, ∅, none⟩] : JournalHeap Nat) 0 "foo"
      = .error "foo is not a valid type" :=
  (add_type_rejects_unknown ([⟨[], 0, ∅, none⟩] : JournalHeap Nat) 0 "foo").2
    (by decide)

/-- C5: after `stop()` the journal reports `is_journaling() = false`; after
`start()` it reports `is_journaling() = true` even though the log holds zero
entries (`get()` returns `some []`), so "not journaling" is observably
distinct from "journaling with an empty log". -/
theorem stop_start_observable (h : JournalHeap V) (self : Nat)
    (hv : (heapGet h self).parent < h.length) :
    Journal.is_journaling (Journal.stop h self) self = false ∧
    ∀ h', Journal.start h self = .ok h' →
      Journal.is_journaling h' self = true ∧ Journal.get h' self = some [] := by
  constructor
  · rw [stop_eq h self hv]
    obtain ⟨hp1, hg1⟩ := heapSet_preserving_parent h self
      { heapGet h (heapGet h self).parent with journal := none, record_types := ∅ } hv rfl
    unfold Journal.is_journaling
    rw [hp1, hg1]
    rfl
  · intro h' hstart
    rw [start_eq h self hv] at hstart
    injection hstart with hh'
    subst hh'
    obtain ⟨hp1, hg1⟩ := heapSet_preserving_parent h self
      { heapGet h (heapGet h self).parent with
        journal := some [],
        record_types := insert "unset" (insert "remove" (insert "add" (insert "set"
          (heapGet h (heapGet h self).parent).record_types))) } hv rfl
    constructor
    · unfold Journal.is_journaling
      rw [hp1, hg1]
      rfl
    · unfold Journal.get
      rw [hp1, hg1]

theorem stop_start_observable_witness :
    Journal.is_journaling (Journal.stop ([⟨[], 0, ∅, some []⟩] : JournalHeap Nat) 0) 0
      = false :=
  (stop_start_observable ([⟨[], 0, ∅, some []⟩] : JournalHeap Nat) 0 (by decide)).1

/-- C7: `replay_file` on a manifest with no `__journal__` section returns
without error and leaves the store unchanged; when the section is present
its entries are replayed onto the store (via the replay loop). -/
theorem replay_file_missing_section_noop (so : StoreOps V S) (st : S)
    (jlog : List (JournalEntry V)) :
    Journal.replay_file so none st = .ok st ∧
    Journal.replay_file so (some jlog) st = Journal.replayLog so jlog st := by
  refine ⟨rfl, ?_⟩
  cases jlog with
  | nil => rfl
  | cons a rest => rfl

/-- C8: `cache_id` is a function of the (substituted) source and the
reference only: equal source and reference give equal ids regardless of the
caller-supplied name, and changing the source alone or the reference alone
changes the id. -/
theorem cache_id_ignores_name (r0 r1 : Resolver) :
    (r0.source = r1.source → r0.reference = r1.reference →
      r0.cache_id = r1.cache_id) ∧
    (r0.reference = r1.reference → r0.source ≠ r1.source →
      r0.cache_id ≠ r1.cache_id) ∧
    (r0.source = r1.source → r0.reference ≠ r1.reference →
      r0.cache_id ≠ r1.cache_id) := by
  refine ⟨?_, ?_, ?_⟩
  · intro hs hr
    unfold Resolver.cache_id
    rw [hs, hr]
  · intro _ hs hid
    exact hs (congrArg Prod.fst hid)
  · intro _ hr hid
    exact hr (congrArg Prod.snd hid)

theorem cache_id_ignores_name_witness :
    (Resolver.mk "testpath0" "file://." (some "ref")).cache_id
      = (Resolver.mk "testpath1" "file://." (some "ref")).cache_id :=
  (cache_id_ignores_name (Resolver.mk "testpath0" "file://." (some "ref"))
    (Resolver.mk "testpath1" "file://." (some "ref"))).1 rfl rfl

/-- C2: for every chain of `get_child` calls from a journal, the resulting
child journal's `__parent` is the original journal's root, its prefix is the
accumulated concatenation of the chain's prefixes, it shares the root's
enabled-type set, its own private log stays `None` (unused), and `record`
through it appends — to the log owned by the root — an entry whose key is
the accumulated prefix prepended to the given keypath. -/
theorem child_records_into_root_log (h : JournalHeap V) (self : Nat)
    (ks : List String) (rest : List (List String)) (rt : String) (key : List String)
    (value : Option V) (fld stp : Option String) (idx : Option (Int ⊕ String))
    (hv : (heapGet h self).parent < h.length) :
    ((heapGet (get_child_chain h self (ks :: rest)).1
        (get_child_chain h self (ks :: rest)).2).parent = (heapGet h self).parent) ∧
    ((heapGet (get_child_chain h self (ks :: rest)).1
        (get_child_chain h self (ks :: rest)).2).keyPre
      = (heapGet h self).keyPre ++ flatAll (ks :: rest)) ∧
    (Journal.get_types (get_child_chain h self (ks :: rest)).1
        (get_child_chain h self (ks :: rest)).2 = Journal.get_types h self) ∧
    ((heapGet (get_child_chain h self (ks :: rest)).1
        (get_child_chain h self (ks :: rest)).2).journal = none) ∧
    (∀ log, (heapGet (get_child_chain h self (ks :: rest)).1
        (heapGet h self).parent).journal = some log →
      rt ∈ (heapGet (get_child_chain h self (ks :: rest)).1
        (heapGet h self).parent).record_types →
      Journal.record (get_child_chain h self (ks :: rest)).1
        (get_child_chain h self (ks :: rest)).2 rt key value fld stp idx
      = heapSet (get_child_chain h self (ks :: rest)).1 (heapGet h self).parent
          { heapGet (get_child_chain h self (ks :: rest)).1 (heapGet h self).parent with
            journal := some (log ++
              [{ type := rt,
                 key := ((heapGet h self).keyPre ++ flatAll (ks :: rest)) ++ key,
                 value := value, field := fld, step := stp,
                 index := Journal.canonIndex idx }]) }) := by
  obtain ⟨f1, f2, _, f4, f5⟩ := get_child_chain_spec (ks :: rest) h self hv
  refine ⟨f1, f2, ?_, f5 (by simp), ?_⟩
  · unfold Journal.get_types
    rw [f1, f4 _ hv]
  · intro log hlog htype
    have hj : (heapGet (get_child_chain h self (ks :: rest)).1
        (heapGet (get_child_chain h self (ks :: rest)).1
          (get_child_chain h self (ks :: rest)).2).parent).journal = some log := by
      rw [f1]; exact hlog
    have ht : rt ∈ (heapGet (get_child_chain h self (ks :: rest)).1
        (heapGet (get_child_chain h self (ks :: rest)).1
          (get_child_chain h self (ks :: rest)).2).parent).record_types := by
      rw [f1]; exact htype
    rw [record_eq_active _ _ rt key value fld stp idx log hj ht, f1, f2]

theorem child_records_into_root_log_witness :
    Journal.record
      (get_child_chain ([⟨[], 0, insert "set" ∅, some []⟩] : JournalHeap Nat)
        0 [["lib"]]).1
      (get_child_chain ([⟨[], 0, insert "set" ∅, some []⟩] : JournalHeap Nat)
        0 [["lib"]]).2
      "set" ["k"] (some 5) none none none
    = heapSet
        (get_child_chain ([⟨[], 0, insert "set" ∅, some []⟩] : JournalHeap Nat)
          0 [["lib"]]).1 0
        { heapGet (get_child_chain ([⟨[], 0, insert "set" ∅, some []⟩] : JournalHeap Nat)
            0 [["lib"]]).1 0 with
          journal := some [⟨"set", ["lib", "k"], some 5, none, none, none⟩] } := by
  have H := child_records_into_root_log
    ([⟨[], 0, insert "set" ∅, some []⟩] : JournalHeap Nat) 0 ["lib"] [] "set" ["k"]
    (some 5) none none none (by decide)
  exact H.2.2.2.2 [] rfl (by decide)

/-!
## Round-trip machinery (C1)
-/

/-- A single-root heap, as produced by `Journal()` followed by `start()`. -/
def rootHeap (T : Finset String) (log : List (JournalEntry V)) : JournalHeap V :=
  [{ keyPre := [], parent := 0, record_types := T, journal := some log }]

/-- The enabled-type set after `start()` plus an explicit
`add_type("get")`. -/
def startedTypes : Finset String :=
  insert "get" (insert "unset" (insert "remove" (insert "add" (insert "set" ∅))))

set_option maxHeartbeats 2000000 in
theorem journalAfterStart_eq :
    journalAfterStart V = (rootHeap startedTypes [], 0) := rfl

/-- The journal entry produced by recording one operation through a root
journal (empty prefix, all five types enabled). -/
def entryOf : Op V → JournalEntry V
  | .set key value fld stp idx => ⟨"set", key, value, fld, stp, Journal.canonIndex idx⟩
  | .add key value fld stp idx => ⟨"add", key, value, fld, stp, Journal.canonIndex idx⟩
  | .unset key stp idx => ⟨"unset", key, none, none, stp, Journal.canonIndex idx⟩
  | .remove key => ⟨"remove", key, none, none, none, none⟩
  | .get key fld stp idx => ⟨"get", key, none, fld, stp, Journal.canonIndex idx⟩

theorem recordOp_rootHeap (op : Op V) (log : List (JournalEntry V)) :
    recordOp (rootHeap startedTypes log) 0 op
      = rootHeap startedTypes (log ++ [entryOf op]) := by
  cases op <;> rfl

theorem doOps_rootHeap (so : StoreOps V S) :
    ∀ (ops : List (Op V)) (st : S) (log : List (JournalEntry V)),
      doOps so 0 ops (st, rootHeap startedTypes log)
        = (applyOps so ops st, rootHeap startedTypes (log ++ ops.map entryOf))
  | [], st, log => by simp [doOps, applyOps]
  | op :: rest, st, log => by
    have h1 : doOp so 0 (st, rootHeap (V := V) startedTypes log) op
        = (applyOp so op st, rootHeap startedTypes (log ++ [entryOf op])) := by
      show (applyOp so op st, recordOp (rootHeap startedTypes log) 0 op) = _
      rw [recordOp_rootHeap]
    calc doOps so 0 (op :: rest) (st, rootHeap startedTypes log)
        = doOps so 0 rest (doOp so 0 (st, rootHeap startedTypes log) op) := rfl
      _ = doOps so 0 rest
            (applyOp so op st, rootHeap startedTypes (log ++ [entryOf op])) := by rw [h1]
      _ = (applyOps so rest (applyOp so op st),
            rootHeap startedTypes ((log ++ [entryOf op]) ++ rest.map entryOf)) :=
          doOps_rootHeap so rest _ _
      _ = (applyOps so (op :: rest) st,
            rootHeap startedTypes (log ++ (op :: rest).map entryOf)) := by
          rw [List.append_assoc]
          rfl

theorem replayLog_entryOf (so : StoreOps V S) (op : Op V)
    (rest : List (JournalEntry V)) (st : S) :
    Journal.replayLog so (entryOf op :: rest) st
      = Journal.replayLog so rest (applyOp so op st) := by
  cases op <;> rfl

theorem replayLog_map (so : StoreOps V S) :
    ∀ (ops : List (Op V)) (st : S),
      Journal.replayLog so (ops.map entryOf) st = .ok (applyOps so ops st)
  | [], _ => rfl
  | op :: rest, st => by
    rw [List.map_cons, replayLog_entryOf, replayLog_map so rest]
    rfl

/-- C1: record a sequence of store operations (the four mutators, and reads
with `get` recording opted in) through a freshly started root journal, then
`replay` the accumulated log onto the same fresh, empty store: the result is
exactly the final state of the original store — each logged mutator entry is
re-applied in chronological order, and `get` entries never affect the
replayed state. -/
theorem journal_replay_roundtrip (V S : Type) (so : StoreOps V S) (fresh : S)
    (ops : List (Op V)) :
    Journal.replay (doOps so (journalAfterStart V).2 ops
        (fresh, (journalAfterStart V).1)).2 (journalAfterStart V).2 so fresh
      = .ok (doOps so (journalAfterStart V).2 ops
        (fresh, (journalAfterStart V).1)).1 := by
  rw [journalAfterStart_eq]
  show Journal.replay (doOps so 0 ops (fresh, rootHeap startedTypes [])).2 0 so fresh
    = .ok (doOps so 0 ops (fresh, rootHeap startedTypes [])).1
  rw [doOps_rootHeap so ops fresh []]
  show Journal.replay (rootHeap startedTypes ([] ++ ops.map entryOf)) 0 so fresh
    = .ok (applyOps so ops fresh)
  rw [List.nil_append]
  cases ops with
  | nil => rfl
  | cons op rest =>
    show Journal.replayLog so (entryOf op :: List.map entryOf rest) fresh
      = .ok (applyOps so (op :: rest) fresh)
    exact replayLog_map so (op :: rest) fresh

/-- C3: during replay, an entry whose type is `set`/`add`/`unset`/`remove`
is re-applied via the same-named store mutator, a `get` entry is skipped
without effect, and any other type yields the fatal
`Unknown record type` error whose value does not depend on the remaining
entries — so nothing after the offending entry is applied. -/
theorem replay_dispatch (so : StoreOps V S) (a : JournalEntry V)
    (rest : List (JournalEntry V)) (st : S) :
    (a.type = "set" → Journal.replayLog so (a :: rest) st
      = Journal.replayLog so rest (so.set a.key a.value a.field a.step a.index st)) ∧
    (a.type = "add" → Journal.replayLog so (a :: rest) st
      = Journal.replayLog so rest (so.add a.key a.value a.field a.step a.index st)) ∧
    (a.type = "unset" → Journal.replayLog so (a :: rest) st
      = Journal.replayLog so rest (so.unset a.key a.step a.index st)) ∧
    (a.type = "remove" → Journal.replayLog so (a :: rest) st
      = Journal.replayLog so rest (so.remove a.key st)) ∧
    (a.type = "get" → Journal.replayLog so (a :: rest) st
      = Journal.replayLog so rest st) ∧
    (a.type ∉ Journal.valid_types → Journal.replayLog so (a :: rest) st
      = .error ("Unknown record type " ++ a.type)) := by
  refine ⟨?_, ?_, ?_, ?_, ?_, ?_⟩
  · intro hty
    simp only [Journal.replayLog, hty]
    simp
  · intro hty
    simp only [Journal.replayLog, hty]
    simp
  · intro hty
    simp only [Journal.replayLog, hty]
    simp
  · intro hty
    simp only [Journal.replayLog, hty]
    simp
  · intro hty
    simp only [Journal.replayLog, hty]
    simp
  · intro hty
    have h1 : ¬ a.type = "set" := fun hh => hty (by rw [hh]; decide)
    have h2 : ¬ a.type = "add" := fun hh => hty (by rw [hh]; decide)
    have h3 : ¬ a.type = "unset" := fun hh => hty (by rw [hh]; decide)
    have h4 : ¬ a.type = "remove" := fun hh => hty (by rw [hh]; decide)
    have h5 : ¬ a.type = "get" := fun hh => hty (by rw [hh]; decide)
    simp only [Journal.replayLog, if_neg h1, if_neg h2, if_neg h3, if_neg h4, if_neg h5]

theorem replay_dispatch_witness :
    Journal.replayLog
      ({ set := fun _ _ _ _ _ st => st, add := fun _ _ _ _ _ st => st,
         unset := fun _ _ _ st => st, remove := fun _ st => st } : StoreOps Nat Nat)
      [⟨"frobnicate", [], none, none, none, none⟩] 0
      = .error ("Unknown record type " ++ "frobnicate") := by
  have H := replay_dispatch
    ({ set := fun _ _ _ _ _ st => st, add := fun _ _ _ _ _ st => st,
       unset := fun _ _ _ st => st, remove := fun _ st => st } : StoreOps Nat Nat)
    (⟨"frobnicate", [], none, none, none, none⟩ : JournalEntry Nat) [] 0
  exact H.2.2.2.2.2 (by decide)

/-- C4 counterexample: `start()` does not clear previously enabled record
types, so on a journal where `get` recording was opted in, a second
`start()` leaves five enabled types — not "exactly the four"
`{set, add, remove, unset}` the claim asserts for every state. -/
theorem start_exactly_four_counterexample :
    (((Journal.start ([⟨[], 0, ∅, none⟩] : JournalHeap Nat) 0).bind
        (fun h => Journal.add_type h 0 "get")).bind
      (fun h => Journal.start h 0)).map (fun h => Journal.get_types h 0)
      = .ok (insert "get" (insert "unset" (insert "remove" (insert "add"
          (insert "set" (∅ : Finset String)))))) ∧
    ¬ (insert "get" (insert "unset" (insert "remove" (insert "add"
        (insert "set" (∅ : Finset String))))) : Finset String)
      = insert "unset" (insert "remove" (insert "add" (insert "set"
          (∅ : Finset String)))) :=
  ⟨rfl, by decide⟩

/-- C4 (amended): `start()` resets the log to empty and ensures the four
mutating types are enabled, inserting them into whatever was already
enabled; it never newly enables `get` (`get` is enabled after `start()` iff
it was enabled before), and from a state with no enabled types (fresh or
stopped journal) the resulting enabled set is exactly the four. -/
theorem start_enables_four_amended (h : JournalHeap V) (self : Nat)
    (hv : (heapGet h self).parent < h.length) :
    ∃ h', Journal.start h self = .ok h' ∧
      Journal.get h' self = some [] ∧
      Journal.get_types h' self = insert "unset" (insert "remove" (insert "add"
        (insert "set" (Journal.get_types h self)))) ∧
      ("get" ∈ Journal.get_types h' self ↔ "get" ∈ Journal.get_types h self) ∧
      (Journal.get_types h self = ∅ →
        Journal.get_types h' self = insert "unset" (insert "remove" (insert "add"
          (insert "set" (∅ : Finset String))))) := by
  obtain ⟨hp1, hg1⟩ := heapSet_preserving_parent h self
    { heapGet h (heapGet h self).parent with
      journal := some [],
      record_types := insert "unset" (insert "remove" (insert "add" (insert "set"
        (heapGet h (heapGet h self).parent).record_types))) } hv rfl
  have hT : Journal.get_types (heapSet h (heapGet h self).parent
      { heapGet h (heapGet h self).parent with
        journal := some [],
        record_types := insert "unset" (insert "remove" (insert "add" (insert "set"
          (heapGet h (heapGet h self).parent).record_types))) }) self
      = insert "unset" (insert "remove" (insert "add" (insert "set"
        (heapGet h (heapGet h self).parent).record_types))) := by
    unfold Journal.get_types
    rw [hp1, hg1]
  refine ⟨_, start_eq h self hv, ?_, ?_, ?_, ?_⟩
  · unfold Journal.get
    rw [hp1, hg1]
  · exact hT
  · rw [hT]
    constructor
    · intro hm
      simp only [Finset.mem_insert] at hm
      rcases hm with h1 | h1 | h1 | h1 | h1
      · exact absurd h1 (by decide)
      · exact absurd h1 (by decide)
      · exact absurd h1 (by decide)
      · exact absurd h1 (by decide)
      · exact h1
    · intro hm
      simp only [Finset.mem_insert]
      exact Or.inr (Or.inr (Or.inr (Or.inr hm)))
  · intro h0
    have h0' : (heapGet h (heapGet h self).parent).record_types = ∅ := h0
    rw [hT, h0']

theorem start_enables_four_amended_witness :
    ∃ h', Journal.start ([⟨[], 0, ∅, none⟩] : JournalHeap Nat) 0 = .ok h' ∧
      Journal.get_types h' 0 = insert "unset" (insert "remove" (insert "add"
        (insert "set" (∅ : Finset String)))) := by
  obtain ⟨h', e1, _, _, _, e5⟩ := start_enables_four_amended
    ([⟨[], 0, ∅, none⟩] : JournalHeap Nat) 0 (by decide)
  exact ⟨h', e1, e5 rfl⟩

/-!
## Deep-copy lemmas (C10)
-/

theorem map_range_getD_append (xs ys : List (JournalEntry V)) :
    (List.range ys.length).map (fun i => (xs ++ ys).getD (xs.length + i) default) = ys := by
  apply List.ext_getElem
  · simp
  · intro i h1 h2
    simp only [List.getElem_map, List.getElem_range]
    rw [List.getD_append_right _ _ _ _ (Nat.le_add_right _ _), Nat.add_sub_cancel_left,
      List.getD_eq_getElem _ _ h2]

/-- The references returned by a deep copy denote exactly the entry values
currently in the log. -/
theorem deepcopy_ret_values (r : RefLog V) :
    (deepcopyGet r).2.map (cellAt (deepcopyGet r).1) = logValues r := by
  show ((List.range r.log.length).map (fun i => r.cells.length + i)).map
      (cellAt ⟨r.cells ++ logValues r, r.log⟩) = logValues r
  rw [List.map_map]
  have h := map_range_getD_append r.cells (logValues r)
  rw [show (logValues r).length = r.log.length from by simp [logValues]] at h
  exact h

/-- A deep copy leaves the values denoted by the journal's own log
unchanged. -/
theorem logValues_deepcopy (r : RefLog V) (hwf : RefLogWF r) :
    logValues (deepcopyGet r).1 = logValues r := by
  show r.log.map (cellAt ⟨r.cells ++ logValues r, r.log⟩) = r.log.map (cellAt r)
  apply List.map_congr_left
  intro a ha
  show (r.cells ++ logValues r).getD a default = r.cells.getD a default
  exact List.getD_append _ _ _ _ (hwf a ha)

/-- Writing a cell referenced by no log entry does not change the values the
log denotes. -/
theorem logValues_writeCell_fresh (r : RefLog V) (a : Nat) (e : JournalEntry V)
    (ha : ∀ b ∈ r.log, b ≠ a) :
    logValues (writeCell r a e) = logValues r := by
  show r.log.map (cellAt ⟨r.cells.set a e, r.log⟩) = r.log.map (cellAt r)
  apply List.map_congr_left
  intro b hb
  show (r.cells.set a e).getD b default = r.cells.getD b default
  exact getD_set_of_ne _ _ _ _ _ (Ne.symm (ha b hb))

/-- C10: `Journal.get` returns `copy.deepcopy` of the root's log.  In the
reference-cell model: the returned references denote exactly the log's
current entries; taking the copy does not modify the journal state (same
log references, same denoted values); two successive copies with no
intervening record are structurally equal; and mutating any returned cell
never changes the entries denoted by the journal's own log (the copies live
in fresh cells). -/
theorem get_returns_independent_deepcopy (r : RefLog V) (hwf : RefLogWF r) :
    ((deepcopyGet r).2.map (cellAt (deepcopyGet r).1) = logValues r) ∧
    ((deepcopyGet r).1.log = r.log) ∧
    (logValues (deepcopyGet r).1 = logValues r) ∧
    ((deepcopyGet (deepcopyGet r).1).2.map (cellAt (deepcopyGet (deepcopyGet r).1).1)
      = (deepcopyGet r).2.map (cellAt (deepcopyGet r).1)) ∧
    (∀ a ∈ (deepcopyGet r).2, ∀ e, logValues (writeCell (deepcopyGet r).1 a e)
      = logValues (deepcopyGet r).1) := by
  refine ⟨deepcopy_ret_values r, rfl, logValues_deepcopy r hwf, ?_, ?_⟩
  · rw [deepcopy_ret_values, deepcopy_ret_values, logValues_deepcopy r hwf]
  · intro a ha e
    apply logValues_writeCell_fresh
    intro b hb
    have hb' : b ∈ r.log := hb
    have hblt : b < r.cells.length := hwf b hb'
    simp only [deepcopyGet, List.mem_map, List.mem_range] at ha
    obtain ⟨i, _, rfl⟩ := ha
    omega

theorem get_returns_independent_deepcopy_witness :
    (deepcopyGet (⟨[⟨"set", ["k"], some 1, none, none, none⟩], [0]⟩ : RefLog Nat)).2.map
        (cellAt (deepcopyGet
          (⟨[⟨"set", ["k"], some 1, none, none, none⟩], [0]⟩ : RefLog Nat)).1)
      = logValues (⟨[⟨"set", ["k"], some 1, none, none, none⟩], [0]⟩ : RefLog Nat) :=
  (get_returns_independent_deepcopy
    (⟨[⟨"set", ["k"], some 1, none, none, none⟩], [0]⟩ : RefLog Nat)
    (by unfold RefLogWF; decide)).1
